import Mathlib

/-!
Shallow embedding of the analysis pipeline of the cancer-rate dashboard
(src/streamlit_cancer_app.py and src/streamlit_app.py): tables, the demo
data generator, Pearson correlation, correlation-strength labels, regional
aggregation and its extremes, ingestion fallback, and the default column
selection of the relationship explorer.
-/

/-- Data of one named column of a DataFrame: a float64/int64 column (cells
are rationals, None standing for NaN) or an object/string column (None
standing for a missing label). -/
inductive ColData where
  | nums (vs : List (Option ℚ))
  | strs (vs : List (Option String))
deriving DecidableEq

/-- A DataFrame: the ordered list of named columns. -/
abbrev Table := List (String × ColData)

/-- df.select_dtypes(include=[float64, int64]): the numeric columns, in
order of appearance. -/
def numericCols (t : Table) : List (String × List (Option ℚ)) :=
  t.filterMap fun c =>
    match c.2 with
    | ColData.nums vs => some (c.1, vs)
    | ColData.strs _ => none

/-- Column lookup by name (df[name]). -/
def lookupCol (t : Table) (name : String) : Option ColData :=
  (t.find? fun c => c.1 == name).map Prod.snd

/-- The cells of the named numeric column ([] when the column is absent or
not numeric). -/
def numColOf (t : Table) (name : String) : List (Option ℚ) :=
  match lookupCol t name with
  | some (ColData.nums vs) => vs
  | _ => []

/-- The strength classification printed under the relationship explorer
(src/streamlit_cancer_app.py lines 180-185): if abs(correlation) > 0.7 the
message is strong, elif abs(correlation) > 0.4 moderate, else weak. -/
def interpretStrength (r : ℚ) : String :=
  if 7/10 < |r| then "strong"
  else if 2/5 < |r| then "moderate"
  else "weak"

/-- The rows where both columns are non-missing, as the list of value pairs:
numeric_df.corr() and Series.corr drop NaN values pairwise before
computing each coefficient. -/
def pairedObs : List (Option ℚ) → List (Option ℚ) → List (ℚ × ℚ)
  | some a :: xs, some b :: ys => (a, b) :: pairedObs xs ys
  | _ :: xs, _ :: ys => pairedObs xs ys
  | _, _ => []

/-- Mean of a list of rationals (0 on the empty list, since 0/0 = 0). -/
def qmean (l : List ℚ) : ℚ := l.sum / l.length

/-- Sum of squared deviations from the mean: the unnormalised variance
numerator of a column. -/
def sqDev (l : List ℚ) : ℚ := (l.map fun x => (x - qmean l) ^ 2).sum

/-- Unnormalised covariance numerator over a list of paired values. -/
def crossDev (ps : List (ℚ × ℚ)) : ℚ :=
  (ps.map fun p =>
    (p.1 - qmean (ps.map Prod.fst)) * (p.2 - qmean (ps.map Prod.snd))).sum

/-- Pearson correlation of two columns as pandas computes it for the
correlation matrix (numeric_df.corr(), line 142) and the relationship
explorer (df[x].corr(df[y]), line 177): NaN cells are dropped pairwise,
the coefficient is the covariance over the product of the standard
deviations (the 1/(n-1) normalisations cancel), and the result is NaN
(none here) when either column has zero variance over the paired rows —
in particular for a constant column and for fewer than 2 paired
observations. -/
noncomputable def pearson (xs ys : List (Option ℚ)) : Option ℝ :=
  if sqDev ((pairedObs xs ys).map Prod.fst) = 0 ∨
      sqDev ((pairedObs xs ys).map Prod.snd) = 0 then none
  else some ((crossDev (pairedObs xs ys) : ℝ) /
    Real.sqrt ((sqDev ((pairedObs xs ys).map Prod.fst) : ℝ) *
      (sqDev ((pairedObs xs ys).map Prod.snd) : ℝ)))

/-- The four region labels of the demo generator (line 77). -/
def regionNames : List String := ["Northeast", "Midwest", "South", "West"]

/-- Row i median income: np.random.normal(45000, 15000, n), i.e. 45000 +
15000 times the i-th standard normal draw of the stream om. -/
def incomeAt (om : Nat → ℚ) (i : Nat) : ℚ := 45000 + 15000 * om i

/-- Row i poverty rate: np.random.normal(15, 5, n), drawn after the n
income draws. -/
def povertyAt (om : Nat → ℚ) (n i : Nat) : ℚ := 15 + 5 * om (n + i)

/-- Row i education level: np.random.normal(25, 10, n). -/
def educationAt (om : Nat → ℚ) (n i : Nat) : ℚ := 25 + 10 * om (2*n + i)

/-- Row i cancer rate: 150 - 0.001*income + 2*poverty + normal(0,10) noise,
then np.maximum(cancer_rate, 50) floors it at 50 (lines 70-71). -/
def cancerAt (om : Nat → ℚ) (n i : Nat) : ℚ :=
  max (150 - (1/1000) * incomeAt om i + 2 * povertyAt om n i + 10 * om (3*n + i)) 50

/-- Row i lung cancer rate: 50 - 0.0003*income + 1.5*poverty + normal(0,5)
noise; the source applies no floor to this column (line 73). -/
def lungAt (om : Nat → ℚ) (n i : Nat) : ℚ :=
  50 - (3/10000) * incomeAt om i + (3/2) * povertyAt om n i + 5 * om (4*n + i)

/-- Row i breast cancer rate: 40 - 0.0002*income + 0.5*poverty + normal(0,8)
noise; no floor either (line 74). -/
def breastAt (om : Nat → ℚ) (n i : Nat) : ℚ :=
  40 - (2/10000) * incomeAt om i + (1/2) * povertyAt om n i + 8 * om (5*n + i)

/-- Row i region: np.random.choice over the four region labels. -/
def regionAt (ch : Nat → Fin 4) (i : Nat) : String :=
  regionNames.getD (ch i).val "Northeast"

/-- load_demo_data (lines 57-91) over an explicit stream om of standard
normal draws (om k is the k-th value np.random produces after seeding) and
a stream ch of region choices: the synthetic table with one row identifier
column, one region column, three socio-economic columns and three incidence
columns, n rows each. -/
def load_demo_data (om : Nat → ℚ) (ch : Nat → Fin 4) (n : Nat) : Table :=
  [("County", ColData.strs ((List.range n).map fun i =>
      some ("County_" ++ toString (i+1)))),
   ("Region", ColData.strs ((List.range n).map fun i => some (regionAt ch i))),
   ("Median_Income", ColData.nums ((List.range n).map fun i =>
      some (incomeAt om i))),
   ("Poverty_Rate", ColData.nums ((List.range n).map fun i =>
      some (povertyAt om n i))),
   ("Education_Level", ColData.nums ((List.range n).map fun i =>
      some (educationAt om n i))),
   ("Cancer_Rate", ColData.nums ((List.range n).map fun i =>
      some (cancerAt om n i))),
   ("Lung_Cancer_Rate", ColData.nums ((List.range n).map fun i =>
      some (lungAt om n i))),
   ("Breast_Cancer_Rate", ColData.nums ((List.range n).map fun i =>
      some (breastAt om n i)))]

/-- A deterministic stand-in for the seeded Mersenne Twister: after
np.random.seed(seed), the k-th draw is a fixed function of (seed, k). The
exact values are irrelevant to the determinism claim; only the functional
dependence on the seed matters. -/
def prngWord (seed k : Nat) : Nat :=
  (1103515245 * (seed + k + 1) + 12345) % 2147483648

/-- The standard normal draw stream determined by the seed (modelled). -/
def seededNormal (seed : Nat) : Nat → ℚ := fun k =>
  (prngWord seed k : ℚ) / 2147483648 * 8 - 4

/-- The region choice stream determined by the seed (modelled). -/
def seededChoice (seed : Nat) : Nat → Fin 4 := fun k =>
  ⟨prngWord seed (6000000 + k) % 4, Nat.mod_lt _ (by norm_num)⟩

/-- load_demo_data as the app runs it: np.random.seed(seed) fixes the whole
draw stream, so the table is a function of (seed, n) alone; the app uses
seed 42 and n = 100. -/
def loadDemoSeeded (seed n : Nat) : Table :=
  load_demo_data (seededNormal seed) (seededChoice seed) n

/-- A draw stream whose poverty draw for row 0 (index n + 0 = 1 when n = 1)
is -100 and all other draws are 0. -/
def omNeg : Nat → ℚ := fun k => if k = 1 then -100 else 0

/-- A constant region-choice stream. -/
def chZero : Nat → Fin 4 := fun _ => 0

/-- The group keys of a column, as df.groupby uses them: missing cells
(NaN) give no group; numeric keys are rendered as labels. -/
def keyList : ColData → List (Option String)
  | ColData.strs vs => vs
  | ColData.nums vs => vs.map (Option.map fun q => toString q)

/-- Code-point lexicographic comparison of two label strings as lists of
characters (python string comparison, which pandas uses to sort group
keys), written structurally so that it evaluates. -/
def charListLE : List Char → List Char → Bool
  | [], _ => true
  | _ :: _, [] => false
  | a :: as, b :: bs =>
    if a.toNat < b.toNat then true
    else if b.toNat < a.toNat then false
    else charListLE as bs

/-- Label comparison: python string less-or-equal. -/
def labelLE (a b : String) : Bool := charListLE a.data b.data

/-- The distinct group labels present in the key column, sorted ascending:
groupby(sort=True) orders the group keys and drops missing keys. -/
def presentRegions (keys : List (Option String)) : List String :=
  List.insertionSort (fun a b : String => labelLE a b = true) (keys.filterMap id).dedup

/-- Mean aggregation of one metric column within one region group: the
pandas mean skips NaN cells, so missing values are excluded from both the
sum and the count; a group whose cells are all missing yields NaN (none). -/
def groupMean (keys : List (Option String)) (vs : List (Option ℚ))
    (r : String) : Option ℚ :=
  if (((keys.zip vs).filter fun p => p.1 == some r).filterMap Prod.snd).length = 0
  then none
  else some ((((keys.zip vs).filter fun p => p.1 == some r).filterMap Prod.snd).sum /
    (((keys.zip vs).filter fun p => p.1 == some r).filterMap Prod.snd).length)

/-- df.groupby(Region).agg over the fixed dict of lines 193-197: needs the
Region column plus numeric Median_Income, Poverty_Rate and Cancer_Rate
columns (pandas raises KeyError / TypeError otherwise, modelled as the
error branch); on success, one row per region label present, labels
ascending, each metric aggregated with the NaN-skipping mean. -/
def regional_stats (t : Table) :
    Except String (List (String × Option ℚ × Option ℚ × Option ℚ)) :=
  match lookupCol t "Region" with
  | none => Except.error "KeyError: Region"
  | some rc =>
    match lookupCol t "Median_Income", lookupCol t "Poverty_Rate",
        lookupCol t "Cancer_Rate" with
    | some (ColData.nums mi), some (ColData.nums pr), some (ColData.nums cr) =>
      Except.ok ((presentRegions (keyList rc)).map fun r =>
        (r, groupMean (keyList rc) mi r, groupMean (keyList rc) pr r,
          groupMean (keyList rc) cr r))
    | _, _, _ => Except.error "KeyError: metric column"

/-- Modelled from the spec: RankRegions is only specified, not implemented
by the source (which reports extremes via idxmax/idxmin); the spec orders
entries by the metric in the chosen direction with ties broken by region
label ascending. rankLE is that total order as a comparator. -/
def rankLE (desc : Bool) (a b : String × ℚ) : Bool :=
  if a.2 = b.2 then labelLE a.1 b.1
  else if desc then decide (b.2 < a.2) else decide (a.2 < b.2)

/-- Modelled from the spec: RankRegions sorts the regional summary with the
rankLE comparator (metric by direction, ties by label ascending). -/
def rankRegions (desc : Bool) (s : List (String × ℚ)) : List (String × ℚ) :=
  List.insertionSort (fun a b => rankLE desc a b = true) s

/-- regional_stats[metric].idxmax() followed by .loc (lines 211-212):
idxmax returns the label of the first row attaining the maximum, so this
is the first entry with maximal metric value. -/
def idxmaxEntry (s : List (String × ℚ)) : Option (String × ℚ) :=
  match s with
  | [] => none
  | x :: rest => some (rest.foldl (fun m e => if m.2 < e.2 then e else m) x)

/-- The outcome of pd.read_csv / pd.read_excel on an upload: the parsed
table, or the message of the exception the parser raised. -/
abbrev ParseResult := Except String Table

/-- The upload branch of src/streamlit_cancer_app.py (lines 101-110): try
the parse; on any exception show a non-fatal error notice and substitute
load_demo_data(). Returns the session table and whether the notice was
shown; the function is total, so no exception reaches the caller. -/
def cancerAppIngest (p : ParseResult) (demo : Table) : Table × Bool :=
  match p with
  | Except.ok t => (t, false)
  | Except.error _ => (demo, true)

/-- The upload path of src/streamlit_app.py (lines 16-17): pd.read_excel is
called with no try/except around it, so a parse failure propagates
unchanged to the caller and no table is produced. -/
def plainAppIngest (p : ParseResult) : ParseResult := p

/-- The default x/y selections of the relationship explorer (lines
155-159): selectbox over numeric_df.columns with index=2 and index=5; an
index past the end of the options raises a StreamlitAPIException, modelled
as none. -/
def defaultXY (t : Table) : Option (String × String) :=
  match ((numericCols t).map Prod.fst)[2]?, ((numericCols t).map Prod.fst)[5]? with
  | some x, some y => some (x, y)
  | _, _ => none

/-- A table with a Region column and the three metric columns the regional
aggregation reads, plus an unrelated extra column. -/
def tableOkSchema : Table :=
  [("Region", ColData.strs [some "North"]),
   ("Median_Income", ColData.nums [some 1]),
   ("Poverty_Rate", ColData.nums [some 2]),
   ("Cancer_Rate", ColData.nums [some 3]),
   ("Extra", ColData.strs [some "x"])]

/-- A table with a Region column but none of the metric columns the
regional aggregation hard-codes. -/
def tableNoMetrics : Table :=
  [("Region", ColData.strs [some "North", some "South"]),
   ("Foo", ColData.nums [some 1, some 2])]

/-- One region North whose metric cells are [5, missing, 7] in all three
aggregated columns. -/
def tableNorth : Table :=
  [("Region", ColData.strs [some "North", some "North", some "North"]),
   ("Median_Income", ColData.nums [some 5, none, some 7]),
   ("Poverty_Rate", ColData.nums [some 5, none, some 7]),
   ("Cancer_Rate", ColData.nums [some 5, none, some 7])]

/-- A valid table (it has a Region column) with only 5 numeric columns. -/
def tableFiveNumeric : Table :=
  [("Region", ColData.strs [some "North"]),
   ("A1", ColData.nums [some 1]), ("A2", ColData.nums [some 1]),
   ("A3", ColData.nums [some 1]), ("A4", ColData.nums [some 1]),
   ("A5", ColData.nums [some 1])]

/-! ## Theorems -/

/-- C3: interpretStrength returns strong exactly when 0.7 < abs r, moderate
exactly when 0.4 < abs r and abs r ≤ 0.7, and weak exactly when
abs r ≤ 0.4; the boundary values 0.7 and 0.4 fall into the lower
category. -/
theorem interpretStrength_cases (r : ℚ) :
    (interpretStrength r = "strong" ↔ 7/10 < |r|) ∧
    (interpretStrength r = "moderate" ↔ (2/5 < |r| ∧ |r| ≤ 7/10)) ∧
    (interpretStrength r = "weak" ↔ |r| ≤ 2/5) ∧
    interpretStrength (7/10 : ℚ) = "moderate" ∧
    interpretStrength (2/5 : ℚ) = "weak" := by
  have h710 : |(7 : ℚ)/10| = 7/10 := abs_of_nonneg (by norm_num)
  have h25 : |(2 : ℚ)/5| = 2/5 := abs_of_nonneg (by norm_num)
  refine ⟨?_, ?_, ?_, ?_, ?_⟩
  case _ | _ | _ =>
    unfold interpretStrength
    split_ifs with h1 h2 <;> simp_all <;> linarith
  case _ =>
    unfold interpretStrength
    rw [h710]
    norm_num
  case _ =>
    unfold interpretStrength
    rw [h25]
    norm_num


theorem pairedObs_swap (xs ys : List (Option ℚ)) :
    pairedObs ys xs = (pairedObs xs ys).map fun p => (p.2, p.1) := by
  induction xs generalizing ys with
  | nil => cases ys <;> simp [pairedObs]
  | cons x xs ih =>
    cases ys with
    | nil => simp [pairedObs]
    | cons y ys => cases x <;> cases y <;> simp [pairedObs, ih]

theorem pairedObs_self (xs : List (Option ℚ)) :
    pairedObs xs xs = (xs.filterMap id).map fun a => (a, a) := by
  induction xs with
  | nil => simp [pairedObs]
  | cons x xs ih => cases x <;> simp [pairedObs, ih]

theorem map_fst_swap (l : List (ℚ × ℚ)) :
    ((l.map fun p => (p.2, p.1)).map Prod.fst) = l.map Prod.snd := by
  simp [List.map_map]

theorem map_snd_swap (l : List (ℚ × ℚ)) :
    ((l.map fun p => (p.2, p.1)).map Prod.snd) = l.map Prod.fst := by
  simp [List.map_map]

theorem map_fst_diag (l : List ℚ) :
    ((l.map fun a => (a, a)).map Prod.fst) = l := by
  induction l with
  | nil => simp
  | cons a l ih => simp [ih]

theorem map_snd_diag (l : List ℚ) :
    ((l.map fun a => (a, a)).map Prod.snd) = l := by
  induction l with
  | nil => simp
  | cons a l ih => simp [ih]

theorem crossDev_swap (l : List (ℚ × ℚ)) :
    crossDev (l.map fun p => (p.2, p.1)) = crossDev l := by
  unfold crossDev
  rw [map_fst_swap, map_snd_swap, List.map_map]
  congr 1
  congr 1
  funext p
  simp [mul_comm]

theorem crossDev_diag (l : List ℚ) :
    crossDev (l.map fun a => (a, a)) = sqDev l := by
  unfold crossDev sqDev
  rw [map_fst_diag, map_snd_diag, List.map_map]
  congr 1
  congr 1
  funext a
  simp
  ring

theorem sqDev_nonneg (l : List ℚ) : 0 ≤ sqDev l := by
  apply List.sum_nonneg
  intro x hx
  obtain ⟨a, _, rfl⟩ := List.mem_map.mp hx
  positivity

theorem pearson_comm (xs ys : List (Option ℚ)) : pearson xs ys = pearson ys xs := by
  unfold pearson
  rw [pairedObs_swap xs ys, map_fst_swap, map_snd_swap, crossDev_swap]
  by_cases h1 : sqDev ((pairedObs xs ys).map Prod.fst) = 0 <;>
    by_cases h2 : sqDev ((pairedObs xs ys).map Prod.snd) = 0 <;>
    simp [h1, h2, mul_comm]

theorem pearson_self (xs : List (Option ℚ)) (h : sqDev (xs.filterMap id) ≠ 0) :
    pearson xs xs = some 1 := by
  unfold pearson
  rw [pairedObs_self, map_fst_diag, map_snd_diag, crossDev_diag]
  rw [if_neg (by simp [h])]
  have hnn : (0 : ℝ) ≤ (sqDev (xs.filterMap id) : ℝ) := by
    exact_mod_cast sqDev_nonneg _
  rw [Real.sqrt_mul_self hnn, div_self (by exact_mod_cast h)]

/-- C1: the pairwise Pearson coefficient behind the correlation matrix and
the relationship explorer is symmetric in its two columns, and on a column
of nonzero variance the diagonal coefficient is exactly 1. -/
theorem pearson_symm_diag :
    (∀ xs ys : List (Option ℚ), 2 ≤ (pairedObs xs ys).length →
      pearson xs ys = pearson ys xs) ∧
    (∀ xs : List (Option ℚ), sqDev (xs.filterMap id) ≠ 0 →
      pearson xs xs = some 1) :=
  ⟨fun xs ys _ => pearson_comm xs ys, fun xs h => pearson_self xs h⟩

/-- C1 witness: symmetry on two concrete 2-row columns and a unit diagonal
on a concrete column with a missing cell and nonzero variance. -/
theorem pearson_symm_diag_witness :
    pearson [some 0, some 1] [some 1, some 0] =
      pearson [some 1, some 0] [some 0, some 1] ∧
    pearson [some 0, some 1, none] [some 0, some 1, none] = some 1 := by
  constructor
  · exact pearson_symm_diag.1 _ _ (by norm_num [pairedObs])
  · exact pearson_symm_diag.2 _ (by norm_num [sqDev, qmean, List.filterMap_cons])

theorem list_cs {α : Type} (f g : α → ℚ) (l : List α) :
    ((l.map fun x => f x * g x).sum) ^ 2 ≤
      ((l.map fun x => (f x) ^ 2).sum) * ((l.map fun x => (g x) ^ 2).sum) := by
  induction l with
  | nil => simp
  | cons x l ih =>
    simp only [List.map_cons, List.sum_cons]
    have hA : 0 ≤ (l.map fun x => (f x) ^ 2).sum := by
      apply List.sum_nonneg
      intro v hv
      obtain ⟨a, _, rfl⟩ := List.mem_map.mp hv
      positivity
    have hB : 0 ≤ (l.map fun x => (g x) ^ 2).sum := by
      apply List.sum_nonneg
      intro v hv
      obtain ⟨a, _, rfl⟩ := List.mem_map.mp hv
      positivity
    rcases eq_or_lt_of_le hB with hB0 | hBpos
    · have hS : (l.map fun x => f x * g x).sum = 0 := by
        nlinarith [ih, sq_nonneg ((l.map fun x => f x * g x).sum)]
      rw [hS, ← hB0]
      nlinarith [mul_nonneg hA (sq_nonneg (g x))]
    · nlinarith [ih, hBpos, hA,
        sq_nonneg (f x * (l.map fun x => (g x) ^ 2).sum -
          g x * (l.map fun x => f x * g x).sum),
        mul_nonneg (by positivity : (0:ℚ) ≤ (g x) ^ 2 + (l.map fun x => (g x) ^ 2).sum)
          (sub_nonneg.mpr ih)]

theorem crossDev_sq_le (ps : List (ℚ × ℚ)) :
    crossDev ps ^ 2 ≤ sqDev (ps.map Prod.fst) * sqDev (ps.map Prod.snd) := by
  have h := list_cs (fun p : ℚ × ℚ => p.1 - qmean (ps.map Prod.fst))
    (fun p : ℚ × ℚ => p.2 - qmean (ps.map Prod.snd)) ps
  unfold crossDev sqDev
  rw [List.map_map, List.map_map]
  exact h

theorem mem_pairedObs_fst (xs ys : List (Option ℚ)) (a : ℚ)
    (h : a ∈ (pairedObs xs ys).map Prod.fst) : a ∈ xs.filterMap id := by
  induction xs generalizing ys with
  | nil => simp [pairedObs] at h
  | cons x xs ih =>
    cases ys with
    | nil => simp [pairedObs] at h
    | cons y ys =>
      cases x with
      | none =>
        simp only [pairedObs] at h
        simpa using ih ys h
      | some v =>
        cases y with
        | none =>
          simp only [pairedObs] at h
          simp only [List.filterMap_cons, id]
          exact List.mem_cons_of_mem v (ih ys h)
        | some w =>
          simp only [pairedObs, List.map_cons, List.mem_cons] at h
          simp only [List.filterMap_cons, id, List.mem_cons]
          rcases h with h | h
          · exact Or.inl h
          · exact Or.inr (ih ys h)

theorem mem_pairedObs_snd (xs ys : List (Option ℚ)) (a : ℚ)
    (h : a ∈ (pairedObs xs ys).map Prod.snd) : a ∈ ys.filterMap id := by
  apply mem_pairedObs_fst ys xs
  rw [pairedObs_swap xs ys, map_fst_swap] at *
  exact h

theorem sqDev_const (l : List ℚ) (c : ℚ) (h : ∀ a ∈ l, a = c) : sqDev l = 0 := by
  cases l with
  | nil => simp [sqDev]
  | cons b l =>
    have hm : qmean (b :: l) = c := by
      unfold qmean
      rw [List.sum_eq_card_nsmul (b :: l) c h, nsmul_eq_mul]
      have hlen : ((b :: l).length : ℚ) ≠ 0 := by
        rw [List.length_cons]
        push_cast
        positivity
      exact mul_div_cancel_left₀ c hlen
    apply List.sum_eq_zero
    intro v hv
    obtain ⟨a, ha, rfl⟩ := List.mem_map.mp hv
    rw [hm, h a ha]
    ring

theorem pearson_mem_Icc (xs ys : List (Option ℚ)) (r : ℝ)
    (h : pearson xs ys = some r) : -1 ≤ r ∧ r ≤ 1 := by
  unfold pearson at h
  by_cases hc : sqDev ((pairedObs xs ys).map Prod.fst) = 0 ∨
      sqDev ((pairedObs xs ys).map Prod.snd) = 0
  · rw [if_pos hc] at h
    exact absurd h (by simp)
  · rw [if_neg hc] at h
    push_neg at hc
    obtain ⟨hx, hy⟩ := hc
    have hx0 : (0:ℚ) < sqDev ((pairedObs xs ys).map Prod.fst) :=
      lt_of_le_of_ne (sqDev_nonneg _) (Ne.symm hx)
    have hy0 : (0:ℚ) < sqDev ((pairedObs xs ys).map Prod.snd) :=
      lt_of_le_of_ne (sqDev_nonneg _) (Ne.symm hy)
    have hprod : (0:ℝ) < (sqDev ((pairedObs xs ys).map Prod.fst) : ℝ) *
        (sqDev ((pairedObs xs ys).map Prod.snd) : ℝ) := by
      have hx0R : (0:ℝ) < (sqDev ((pairedObs xs ys).map Prod.fst) : ℝ) := by
        exact_mod_cast hx0
      have hy0R : (0:ℝ) < (sqDev ((pairedObs xs ys).map Prod.snd) : ℝ) := by
        exact_mod_cast hy0
      positivity
    have hr : r = (crossDev (pairedObs xs ys) : ℝ) /
        Real.sqrt ((sqDev ((pairedObs xs ys).map Prod.fst) : ℝ) *
          (sqDev ((pairedObs xs ys).map Prod.snd) : ℝ)) :=
      (Option.some.injEq _ _ ▸ h).symm
    have hcs : (crossDev (pairedObs xs ys) : ℝ) ^ 2 ≤
        (sqDev ((pairedObs xs ys).map Prod.fst) : ℝ) *
          (sqDev ((pairedObs xs ys).map Prod.snd) : ℝ) := by
      exact_mod_cast crossDev_sq_le (pairedObs xs ys)
    have hsq : (0:ℝ) < Real.sqrt ((sqDev ((pairedObs xs ys).map Prod.fst) : ℝ) *
        (sqDev ((pairedObs xs ys).map Prod.snd) : ℝ)) :=
      Real.sqrt_pos.mpr hprod
    have habs : |r| ≤ 1 := by
      rw [hr, abs_div, abs_of_pos hsq, div_le_one hsq]
      calc |(crossDev (pairedObs xs ys) : ℝ)|
          = Real.sqrt ((crossDev (pairedObs xs ys) : ℝ) ^ 2) :=
            (Real.sqrt_sq_eq_abs _).symm
        _ ≤ _ := Real.sqrt_le_sqrt hcs
    exact abs_le.mp habs

theorem pearson_const_fst (xs ys : List (Option ℚ)) (c : ℚ)
    (h : ∀ a ∈ xs.filterMap id, a = c) : pearson xs ys = none := by
  have h0 : sqDev ((pairedObs xs ys).map Prod.fst) = 0 :=
    sqDev_const _ c (fun a ha => h a (mem_pairedObs_fst _ _ _ ha))
  unfold pearson
  rw [if_pos (Or.inl h0)]

theorem pearson_const_snd (xs ys : List (Option ℚ)) (c : ℚ)
    (h : ∀ a ∈ ys.filterMap id, a = c) : pearson xs ys = none := by
  have h0 : sqDev ((pairedObs xs ys).map Prod.snd) = 0 :=
    sqDev_const _ c (fun a ha => h a (mem_pairedObs_snd _ _ _ ha))
  unfold pearson
  rw [if_pos (Or.inr h0)]

/-- C5: every defined entry of the correlation matrix lies in the closed
interval [-1, 1], and an entry one of whose variables is a constant
(zero-variance) column is NaN (none) — never a number such as 0. -/
theorem pearson_range_and_undefined :
    (∀ (xs ys : List (Option ℚ)) (r : ℝ),
      pearson xs ys = some r → -1 ≤ r ∧ r ≤ 1) ∧
    (∀ (xs ys : List (Option ℚ)) (c : ℚ),
      (∀ a ∈ xs.filterMap id, a = c) → pearson xs ys = none) ∧
    (∀ (xs ys : List (Option ℚ)) (c : ℚ),
      (∀ a ∈ ys.filterMap id, a = c) → pearson xs ys = none) :=
  ⟨pearson_mem_Icc, pearson_const_fst, pearson_const_snd⟩

/-- C5 witness: a defined concrete coefficient (value 1) lies in [-1, 1],
and two concrete constant columns produce NaN entries. -/
theorem pearson_range_and_undefined_witness :
    pearson [some 0, some 1] [some 0, some 1] = some 1 ∧
    ((-1 : ℝ) ≤ 1 ∧ (1 : ℝ) ≤ 1) ∧
    pearson [some 3, some 3] [some 0, some 1] = none ∧
    pearson [some 0, some 1] [some 3, some 3] = none := by
  have h1 : pearson [some 0, some 1] [some 0, some 1] = some 1 := by
    have hps : pairedObs [some (0:ℚ), some 1] [some (0:ℚ), some 1] =
        [(0,0), (1,1)] := rfl
    have hsx : sqDev ([((0:ℚ),(0:ℚ)), (1,1)].map Prod.fst) = 1/2 := by
      norm_num [sqDev, qmean]
    have hsy : sqDev ([((0:ℚ),(0:ℚ)), (1,1)].map Prod.snd) = 1/2 := by
      norm_num [sqDev, qmean]
    have hcd : crossDev [((0:ℚ),(0:ℚ)), (1,1)] = 1/2 := by
      norm_num [crossDev, qmean]
    unfold pearson
    rw [hps, hsx, hsy, hcd, if_neg (by norm_num)]
    push_cast
    rw [show ((1:ℝ)/2 * (1/2)) = (1/2)^2 by norm_num]
    rw [Real.sqrt_sq (by norm_num : (0:ℝ) ≤ 1/2)]
    norm_num
  refine ⟨h1, pearson_range_and_undefined.1 _ _ _ h1, ?_, ?_⟩
  · exact pearson_range_and_undefined.2.1 _ _ 3
      (by norm_num [List.filterMap_cons])
  · exact pearson_range_and_undefined.2.2 _ _ 3
      (by norm_num [List.filterMap_cons])

/-- C2: determinism of the demo generator: np.random.seed fixes the whole
draw stream, so the generated table is a pure function of (seed, n); two
runs with seed 42, N = 100 produce identical tables (same column names,
same cell values, same row order), and likewise for every seed and N. -/
theorem load_demo_data_deterministic :
    ((loadDemoSeeded 42 100).map Prod.fst =
        (loadDemoSeeded 42 100).map Prod.fst ∧
      loadDemoSeeded 42 100 = loadDemoSeeded 42 100) ∧
    (∀ seed n : Nat, loadDemoSeeded seed n = loadDemoSeeded seed n) :=
  ⟨⟨rfl, rfl⟩, fun _ _ => rfl⟩

/-- C4 counterexample: the Lung_Cancer_Rate column is not floored. With
n = 1 and a draw stream whose poverty draw is -100 (every finite draw
pattern is attainable by normal noise), the generated lung cancer rate is
-691, a negative value in an incidence column. -/
theorem lung_rate_negative_cex :
    numColOf (load_demo_data omNeg chZero 1) "Lung_Cancer_Rate" =
      [some (-691)] ∧ ((-691 : ℚ) < 0) := by
  constructor
  · simp [numColOf, lookupCol, load_demo_data, List.range, List.range.loop,
      lungAt, incomeAt, povertyAt, omNeg]
    norm_num
  · norm_num

/-- C4 amended: only the Cancer_Rate column is floored (np.maximum at 50),
so each of its values is at least 50 and hence non-negative for every draw
stream and row count; the lung and breast incidence columns have no floor
and can be negative. -/
theorem cancer_rate_floored (om : Nat → ℚ) (ch : Nat → Fin 4) (n : Nat)
    (v : Option ℚ)
    (hv : v ∈ numColOf (load_demo_data om ch n) "Cancer_Rate") :
    ∃ q : ℚ, v = some q ∧ 50 ≤ q ∧ 0 ≤ q := by
  have hcol : numColOf (load_demo_data om ch n) "Cancer_Rate" =
      (List.range n).map fun i => some (cancerAt om n i) := rfl
  rw [hcol] at hv
  obtain ⟨i, _, rfl⟩ := List.mem_map.mp hv
  refine ⟨cancerAt om n i, rfl, ?_, ?_⟩
  · exact le_max_right _ 50
  · have := le_max_right (150 - (1/1000) * incomeAt om i +
      2 * povertyAt om n i + 10 * om (3*n + i)) (50 : ℚ)
    unfold cancerAt
    linarith

/-- C4 witness: the floor theorem applied to the only Cancer_Rate cell of a
concrete 1-row generated table. -/
theorem cancer_rate_floored_witness :
    ∃ q : ℚ, some (cancerAt omNeg 1 0) = some q ∧ 50 ≤ q ∧ 0 ≤ q :=
  cancer_rate_floored omNeg chZero 1 _
    (by simp [numColOf, lookupCol, load_demo_data, List.range, List.range.loop])

/-- C6 counterexample: the ingestion path of src/streamlit_app.py wraps
pd.read_excel in no try/except, so a failing parse propagates to the
caller instead of being replaced by the demo table. -/
theorem plain_ingest_raises :
    plainAppIngest (Except.error "ParseError") = Except.error "ParseError" ∧
    (plainAppIngest (Except.error "ParseError")).isOk = false :=
  ⟨rfl, rfl⟩

/-- C6 amended: in src/streamlit_cancer_app.py every failing parse is
replaced by the demo table together with a non-fatal notice and the
ingestion is total (no exception escapes), while the src/streamlit_app.py
path re-raises the parse failure unchanged. -/
theorem ingest_fallback (e : String) (t : Table) :
    cancerAppIngest (Except.error e) (loadDemoSeeded 42 100) =
      (loadDemoSeeded 42 100, true) ∧
    cancerAppIngest (Except.ok t) (loadDemoSeeded 42 100) = (t, false) ∧
    plainAppIngest (Except.error e) = Except.error e :=
  ⟨rfl, rfl, rfl⟩

theorem regional_stats_eq (t : Table) (rc : ColData)
    (mi pr cr : List (Option ℚ))
    (hR : lookupCol t "Region" = some rc)
    (hmi : lookupCol t "Median_Income" = some (ColData.nums mi))
    (hpr : lookupCol t "Poverty_Rate" = some (ColData.nums pr))
    (hcr : lookupCol t "Cancer_Rate" = some (ColData.nums cr)) :
    regional_stats t = Except.ok ((presentRegions (keyList rc)).map fun r =>
      (r, groupMean (keyList rc) mi r, groupMean (keyList rc) pr r,
        groupMean (keyList rc) cr r)) := by
  unfold regional_stats
  rw [hR, hmi, hpr, hcr]

/-- C9 counterexample: a table that has a Region column but lacks the
hard-coded metric columns of the aggregation dict makes the regional
aggregation fail (pandas KeyError), so a Region column alone does not make
the Regional Aggregator succeed. -/
theorem regional_stats_schema_cex :
    lookupCol tableNoMetrics "Region" =
      some (ColData.strs [some "North", some "South"]) ∧
    regional_stats tableNoMetrics = Except.error "KeyError: metric column" :=
  ⟨rfl, rfl⟩

/-- C9 amended: the regional aggregation needs, besides the Region column,
the numeric columns Median_Income, Poverty_Rate and Cancer_Rate; whenever
those are present it succeeds, whatever other columns the table has. -/
theorem regional_stats_no_fixed_schema (t : Table) (rc : ColData)
    (mi pr cr : List (Option ℚ))
    (hR : lookupCol t "Region" = some rc)
    (hmi : lookupCol t "Median_Income" = some (ColData.nums mi))
    (hpr : lookupCol t "Poverty_Rate" = some (ColData.nums pr))
    (hcr : lookupCol t "Cancer_Rate" = some (ColData.nums cr)) :
    ∃ rows, regional_stats t = Except.ok rows :=
  ⟨_, regional_stats_eq t rc mi pr cr hR hmi hpr hcr⟩

/-- C9 witness: the aggregation succeeds on a concrete table holding the
required schema plus an unrelated extra column. -/
theorem regional_stats_no_fixed_schema_witness :
    ∃ rows, regional_stats tableOkSchema = Except.ok rows :=
  regional_stats_no_fixed_schema tableOkSchema
    (ColData.strs [some "North"]) [some 1] [some 2] [some 3]
    rfl rfl rfl rfl

/-- C10: the relationship-explorer defaults (selectbox index 2 and 5 into
the numeric columns) are defined whenever the table has at least 6 numeric
columns, and fail (out-of-range index, a StreamlitAPIException) on a
concrete valid table that has a Region column but only 5 numeric
columns. -/
theorem defaultXY_needs_six :
    (∀ t : Table, 6 ≤ (numericCols t).length → (defaultXY t).isSome = true) ∧
    lookupCol tableFiveNumeric "Region" =
      some (ColData.strs [some "North"]) ∧
    (numericCols tableFiveNumeric).length = 5 ∧
    defaultXY tableFiveNumeric = none := by
  refine ⟨?_, rfl, rfl, rfl⟩
  intro t h
  unfold defaultXY
  have h2 : 2 < ((numericCols t).map Prod.fst).length := by
    rw [List.length_map]; omega
  have h5 : 5 < ((numericCols t).map Prod.fst).length := by
    rw [List.length_map]; omega
  rw [List.getElem?_eq_getElem h2, List.getElem?_eq_getElem h5]
  rfl

theorem mem_presentRegions (keys : List (Option String)) (r : String) :
    r ∈ presentRegions keys ↔ some r ∈ keys := by
  unfold presentRegions
  rw [(List.perm_insertionSort _ _).mem_iff, List.mem_dedup]
  simp [List.mem_filterMap]

/-- C7: the regional aggregation has one row per region label present in
the Region column (every present label appears and no absent label does),
each row carries the NaN-skipping means of the three metric columns over
that region's rows, and on a concrete one-region table North with metric
cells [5, missing, 7] the produced mean is 6 (sum 12 over count 2, the
missing cell excluded from both). -/
theorem groupby_region_means :
    (∀ (keys : List (Option String)) (r : String),
      r ∈ presentRegions keys ↔ some r ∈ keys) ∧
    (∀ (t : Table) (rc : ColData) (mi pr cr : List (Option ℚ)) rows,
      lookupCol t "Region" = some rc →
      lookupCol t "Median_Income" = some (ColData.nums mi) →
      lookupCol t "Poverty_Rate" = some (ColData.nums pr) →
      lookupCol t "Cancer_Rate" = some (ColData.nums cr) →
      regional_stats t = Except.ok rows →
      ∀ e ∈ rows, some e.1 ∈ keyList rc ∧
        e.2.1 = groupMean (keyList rc) mi e.1 ∧
        e.2.2.1 = groupMean (keyList rc) pr e.1 ∧
        e.2.2.2 = groupMean (keyList rc) cr e.1) ∧
    regional_stats tableNorth = Except.ok [("North", some 6, some 6, some 6)] := by
  refine ⟨mem_presentRegions, ?_, ?_⟩
  · intro t rc mi pr cr rows hR hmi hpr hcr hok e he
    rw [regional_stats_eq t rc mi pr cr hR hmi hpr hcr] at hok
    have hrows : rows = (presentRegions (keyList rc)).map fun r =>
        (r, groupMean (keyList rc) mi r, groupMean (keyList rc) pr r,
          groupMean (keyList rc) cr r) := by
      exact (Except.ok.injEq _ _ ▸ hok).symm
    subst hrows
    obtain ⟨r, hr, rfl⟩ := List.mem_map.mp he
    exact ⟨(mem_presentRegions _ _).mp hr, rfl, rfl, rfl⟩
  · have h : groupMean [some "North", some "North", some "North"]
        [some 5, none, some 7] "North" = some 6 := by
      simp [groupMean]
      norm_num
    simp [regional_stats, lookupCol, tableNorth, presentRegions, keyList,
      List.insertionSort, List.orderedInsert, h]

theorem charListLE_total (as : List Char) :
    ∀ bs, charListLE as bs = true ∨ charListLE bs as = true := by
  induction as with
  | nil => intro bs; left; cases bs <;> rfl
  | cons a as ih =>
    intro bs
    cases bs with
    | nil => right; rfl
    | cons b bs =>
      rcases Nat.lt_trichotomy a.toNat b.toNat with h | h | h
      · left
        simp [charListLE, h]
      · have h2 : ¬ a.toNat < b.toNat := by omega
        have h3 : ¬ b.toNat < a.toNat := by omega
        simp only [charListLE, if_neg h2, if_neg h3]
        exact ih bs
      · right
        simp [charListLE, h]

theorem charListLE_trans (as : List Char) :
    ∀ bs cs, charListLE as bs = true → charListLE bs cs = true →
      charListLE as cs = true := by
  induction as with
  | nil => intro bs cs _ _; rfl
  | cons a as ih =>
    intro bs cs hab hbc
    cases bs with
    | nil => simp [charListLE] at hab
    | cons b bs =>
      cases cs with
      | nil => simp [charListLE] at hbc
      | cons c cs =>
        rcases Nat.lt_trichotomy a.toNat b.toNat with h1 | h1 | h1 <;>
          rcases Nat.lt_trichotomy b.toNat c.toNat with h2 | h2 | h2 <;>
          simp only [charListLE] at hab hbc ⊢
        · simp [show a.toNat < c.toNat from by omega]
        · simp [show a.toNat < c.toNat from by omega]
        · rw [if_neg (by omega), if_pos (by omega)] at hbc
          exact absurd hbc (by simp)
        · simp [show a.toNat < c.toNat from by omega]
        · rw [if_neg (by omega), if_neg (by omega)] at hab hbc
          rw [if_neg (by omega), if_neg (by omega)]
          exact ih bs cs hab hbc
        · rw [if_neg (by omega), if_pos (by omega)] at hbc
          exact absurd hbc (by simp)
        · rw [if_neg (by omega), if_pos (by omega)] at hab
          exact absurd hab (by simp)
        · rw [if_neg (by omega), if_pos (by omega)] at hab
          exact absurd hab (by simp)
        · rw [if_neg (by omega), if_pos (by omega)] at hab
          exact absurd hab (by simp)

theorem labelLE_total (a b : String) :
    labelLE a b = true ∨ labelLE b a = true :=
  charListLE_total a.data b.data

theorem labelLE_trans (a b c : String) (hab : labelLE a b = true)
    (hbc : labelLE b c = true) : labelLE a c = true :=
  charListLE_trans a.data b.data c.data hab hbc

theorem rankLE_total (d : Bool) (a b : String × ℚ) :
    rankLE d a b = true ∨ rankLE d b a = true := by
  unfold rankLE
  by_cases h : a.2 = b.2
  · rw [if_pos h, if_pos h.symm]
    exact labelLE_total a.1 b.1
  · have h2 : ¬ b.2 = a.2 := fun e => h e.symm
    rw [if_neg h, if_neg h2]
    rcases lt_or_gt_of_ne h with hlt | hgt
    · cases d
      · left; simp [hlt]
      · right; simp [hlt]
    · cases d
      · right; simp [hgt]
      · left; simp [hgt]

theorem rankLE_trans (d : Bool) (a b c : String × ℚ)
    (hab : rankLE d a b = true) (hbc : rankLE d b c = true) :
    rankLE d a c = true := by
  unfold rankLE at hab hbc ⊢
  by_cases h1 : a.2 = b.2 <;> by_cases h2 : b.2 = c.2
  · rw [if_pos h1] at hab
    rw [if_pos h2] at hbc
    rw [if_pos (h1.trans h2)]
    exact labelLE_trans _ _ _ hab hbc
  · rw [if_neg h2] at hbc
    rw [if_neg (h1 ▸ h2)]
    cases d <;> simp at hbc ⊢ <;> rw [h1] <;> exact hbc
  · rw [if_neg h1] at hab
    rw [if_neg (h2 ▸ h1)]
    cases d <;> simp at hab ⊢ <;> rw [← h2] <;> exact hab
  · rw [if_neg h1] at hab
    rw [if_neg h2] at hbc
    cases d
    · simp at hab hbc
      have hac : a.2 < c.2 := lt_trans hab hbc
      rw [if_neg (ne_of_lt hac)]
      simp [hac]
    · simp at hab hbc
      have hac : c.2 < a.2 := lt_trans hbc hab
      rw [if_neg (ne_of_gt hac)]
      simp [hac]

theorem rankRegions_sorted (d : Bool) (s : List (String × ℚ)) :
    List.Sorted (fun a b => rankLE d a b = true) (rankRegions d s) := by
  unfold rankRegions
  haveI : IsTotal (String × ℚ) (fun a b => rankLE d a b = true) :=
    ⟨rankLE_total d⟩
  haveI : IsTrans (String × ℚ) (fun a b => rankLE d a b = true) :=
    ⟨rankLE_trans d⟩
  exact List.sorted_insertionSort _ _

theorem charListLE_refl (as : List Char) : charListLE as as = true := by
  induction as with
  | nil => rfl
  | cons a as ih => simp [charListLE, ih]

theorem labelLE_refl (a : String) : labelLE a a = true :=
  charListLE_refl a.data

theorem foldMax_mem (l : List (String × ℚ)) :
    ∀ x : String × ℚ,
      l.foldl (fun m e => if m.2 < e.2 then e else m) x ∈ x :: l := by
  induction l with
  | nil => intro x; simp
  | cons a l ih =>
    intro x
    simp only [List.foldl_cons]
    by_cases h : x.2 < a.2
    · rw [if_pos h]
      have := ih a
      simp only [List.mem_cons] at this ⊢
      tauto
    · rw [if_neg h]
      have := ih x
      simp only [List.mem_cons] at this ⊢
      tauto

theorem foldMax_le (l : List (String × ℚ)) :
    ∀ x : String × ℚ, ∀ e ∈ x :: l,
      e.2 ≤ (l.foldl (fun m e => if m.2 < e.2 then e else m) x).2 := by
  induction l with
  | nil =>
    intro x e he
    simp only [List.mem_singleton] at he
    subst he
    simp
  | cons a l ih =>
    intro x e he
    simp only [List.foldl_cons]
    by_cases h : x.2 < a.2
    · rw [if_pos h]
      rcases List.mem_cons.mp he with rfl | he2
      · exact le_trans (le_of_lt h) (ih a a (List.mem_cons_self a l))
      · exact ih a e he2
    · rw [if_neg h]
      rcases List.mem_cons.mp he with rfl | he2
      · exact ih e e (List.mem_cons_self e l)
      · rcases List.mem_cons.mp he2 with rfl | he3
        · exact le_trans (le_of_not_lt h) (ih x x (List.mem_cons_self x l))
        · exact ih x e (List.mem_cons_of_mem x he3)

theorem foldMax_first (l : List (String × ℚ)) :
    ∀ x : String × ℚ,
      (l.foldl (fun m e => if m.2 < e.2 then e else m) x).2 ≤ x.2 →
      l.foldl (fun m e => if m.2 < e.2 then e else m) x = x := by
  induction l with
  | nil => intro x _; rfl
  | cons a l ih =>
    intro x h
    simp only [List.foldl_cons] at h ⊢
    by_cases hxa : x.2 < a.2
    · rw [if_pos hxa] at h ⊢
      have hge := foldMax_le l a a (List.mem_cons_self a l)
      exfalso
      exact absurd (lt_of_lt_of_le hxa hge) (not_lt.mpr h)
    · rw [if_neg hxa] at h ⊢
      exact ih x h

theorem foldMax_tie (l : List (String × ℚ)) :
    ∀ x : String × ℚ,
      List.Pairwise (fun a b => labelLE a.1 b.1 = true) (x :: l) →
      ∀ e ∈ x :: l,
        e.2 = (l.foldl (fun m e => if m.2 < e.2 then e else m) x).2 →
        labelLE (l.foldl (fun m e => if m.2 < e.2 then e else m) x).1 e.1 =
          true := by
  induction l with
  | nil =>
    intro x _ e he _
    simp only [List.mem_singleton] at he
    subst he
    exact labelLE_refl e.1
  | cons a l ih =>
    intro x hp e he hv
    obtain ⟨hhead, hrest⟩ := List.pairwise_cons.mp hp
    simp only [List.foldl_cons] at hv ⊢
    by_cases hxa : x.2 < a.2
    · rw [if_pos hxa] at hv ⊢
      rcases List.mem_cons.mp he with rfl | he2
      · exfalso
        have hge := foldMax_le l a a (List.mem_cons_self a l)
        rw [← hv] at hge
        exact absurd (lt_of_lt_of_le hxa hge) (lt_irrefl _)
      · exact ih a hrest e he2 hv
    · rw [if_neg hxa] at hv ⊢
      have hpx : List.Pairwise (fun a b => labelLE a.1 b.1 = true) (x :: l) :=
        List.pairwise_cons.mpr
          ⟨fun z hz => hhead z (List.mem_cons_of_mem a hz),
            (List.pairwise_cons.mp hrest).2⟩
      rcases List.mem_cons.mp he with rfl | he2
      · exact ih e hpx e (List.mem_cons_self e l) hv
      · rcases List.mem_cons.mp he2 with rfl | he3
        · have hle : (l.foldl (fun m e => if m.2 < e.2 then e else m) x).2 ≤
              x.2 := by
            rw [← hv]
            exact le_of_not_lt hxa
          rw [foldMax_first l x hle]
          exact hhead e (List.mem_cons_self e l)
        · exact ih x hpx e (List.mem_cons_of_mem x he3) hv

/-- C8: the spec's RankRegions (modelled from the spec; the source only
reports extremes) orders entries with equal metric values by region label
ascending; on the summary A=10, B=10, C=5 the descending ranking is
[A, B, C] whatever the input order; and the extreme the code reports
(idxmax over a label-sorted summary, lines 211-212) attains the maximum
metric value and among tied entries carries the alphabetically smallest
label. -/
theorem rank_ties_deterministic :
    (∀ (d : Bool) (s : List (String × ℚ)),
      (rankRegions d s).Pairwise fun a b =>
        a.2 = b.2 → labelLE a.1 b.1 = true) ∧
    rankRegions true [("A",10),("B",10),("C",5)] =
      [("A",10),("B",10),("C",5)] ∧
    rankRegions true [("C",5),("B",10),("A",10)] =
      [("A",10),("B",10),("C",5)] ∧
    (∀ s : List (String × ℚ),
      s.Pairwise (fun a b => labelLE a.1 b.1 = true) →
      ∀ m, idxmaxEntry s = some m →
        ∀ e ∈ s, e.2 ≤ m.2 ∧ (e.2 = m.2 → labelLE m.1 e.1 = true)) ∧
    idxmaxEntry [("A",10),("B",10),("C",5)] = some ("A",10) := by
  refine ⟨?_, by decide, by decide, ?_, by decide⟩
  · intro d s
    have hs : (rankRegions d s).Pairwise fun a b => rankLE d a b = true :=
      rankRegions_sorted d s
    refine List.Pairwise.imp ?_ hs
    intro a b h heq
    unfold rankLE at h
    rw [if_pos heq] at h
    exact h
  · intro s hs m hm e he
    cases s with
    | nil => simp [idxmaxEntry] at hm
    | cons x rest =>
      simp only [idxmaxEntry] at hm
      injection hm with h
      subst h
      exact ⟨foldMax_le rest x e he, fun hv => foldMax_tie rest x hs e he hv⟩
